import Mathlib

/-!
Verification of the Trunfia ("Top Trumps"-style) game engine.

The TypeScript sources are embedded shallowly:
* JavaScript objects used as string-keyed maps become insertion-ordered
  association lists (`StrMap`), with `setKey` mirroring `obj[k] = v`
  (in-place update of an existing key, append otherwise) and `lookupKey`
  mirroring `obj[k]` (`none` = `undefined`).
* `Math.random`-driven helpers (`shuffleArray`, `selectRandomPlayer`) are
  modelled as explicit functional parameters; theorems assume only that a
  shuffle permutes its input.
* Numeric attribute values become `Int`.
* Code that can throw returns `Option` (`none` = the call raised and no
  store write happened).

Namespaces: `gameUtils` embeds `src/utils/gameUtils.ts`, `gameService`
embeds the current `src/services/gameService.ts`, `legacyGameUtils` and
`legacyGameService` embed the earlier iterations of the same modules, and
`gameScreen` embeds the match-start flow of `src/screens/GameScreen.tsx`.
-/

/-- Insertion-ordered association list standing in for a JS object used as a
string-keyed map. -/
abbrev StrMap (α : Type) : Type := List (String × α)

/-- `obj[k]`: the value at the first entry whose key is `k`, `none` when the
key is absent (JS `undefined`). -/
def lookupKey {α : Type} (m : StrMap α) (k : String) : Option α :=
  (m.find? (fun e => e.1 == k)).map (fun e => e.2)

/-- `obj[k] = v`: if `k` is present its entry is replaced in place, otherwise
the pair is appended, matching JS object key-insertion order. -/
def setKey {α : Type} (m : StrMap α) (k : String) (v : α) : StrMap α :=
  if m.any (fun e => e.1 == k) then
    m.map (fun e => if e.1 == k then (k, v) else e)
  else
    m ++ [(k, v)]

/-- A card: identifier, display name and the attribute-name → numeric-value
mapping (`Card` in `src/types`). -/
structure Card where
  id : String
  name : String
  attributes : StrMap Int
deriving Repr, DecidableEq

/-- Seat status (`'active' | 'eliminated'`). -/
inductive Status where
  | active
  | eliminated
deriving Repr, DecidableEq

/-- The fields of a `Player` record that the game engine reads. -/
structure Player where
  nickname : String
  status : Status
deriving Repr, DecidableEq

/-- One entry of `roundHistory` (`RoundResult` in `src/types`). -/
structure RoundResult where
  roundNumber : Nat
  selectedAttribute : String
  playerCards : StrMap (String × Int)
  winner : String
  timestamp : String
deriving Repr, DecidableEq

/-- The `gamePhase` values occurring across the engine iterations. -/
inductive Phase where
  | spinning
  | selecting
  | revealing
  | animatingPlay
  | comparing
  | comparingOnTable
  | animatingWin
  | finished
deriving Repr, DecidableEq

/-- The per-room `GameState` record persisted at `games/{roomId}`. -/
structure GameState where
  currentRound : Nat
  currentPlayer : Option String
  gamePhase : Phase
  playerCards : StrMap (List String)
  currentRoundCards : StrMap String
  selectedAttribute : Option String
  roundWinner : Option String
  gameWinner : Option String
  roundHistory : List RoundResult
  spinResult : Option String
deriving Repr, DecidableEq

namespace gameUtils

/-- The ids of the contiguous chunk of `cardsPerPlayer` shuffled cards
starting at `index * cardsPerPlayer` (`shuffledCards.slice(startIndex,
endIndex).map(card => card.id)`). -/
def sliceIds (shuffledCards : List Card) (cardsPerPlayer : Nat) (index : Nat) :
    List String :=
  ((shuffledCards.drop (index * cardsPerPlayer)).take cardsPerPlayer).map Card.id

/-- The `players.forEach((player, index) => ...)` loop of `distributeCards`:
each player receives their contiguous chunk of the shuffled deck. -/
def initialHands (shuffledCards : List Card) (players : List String)
    (cardsPerPlayer : Nat) : StrMap (List String) :=
  players.enum.foldl
    (fun pc ie => setKey pc ie.2 (sliceIds shuffledCards cardsPerPlayer ie.1)) []

/-- The `while (remainderIndex < shuffledCards.length)` loop of
`distributeCards`: leftover cards are pushed one at a time to players,
cycling the player index. -/
def distributeRemainder (players : List String) :
    StrMap (List String) → Nat → List Card → StrMap (List String)
  | pc, _, [] => pc
  | pc, playerIndex, c :: rest =>
    let key := players.getD playerIndex ""
    let pc2 := match lookupKey pc key with
      | some hand => setKey pc key (hand ++ [c.id])
      | none => pc
    distributeRemainder players pc2 ((playerIndex + 1) % players.length) rest

/-- `distributeCards` from `src/utils/gameUtils.ts`; the Fisher–Yates
`shuffleArray` call is the explicit `shuffle` parameter. -/
def distributeCards (shuffle : List Card → List Card) (cards : List Card)
    (players : List String) : StrMap (List String) :=
  let shuffledCards := shuffle cards
  let cardsPerPlayer := shuffledCards.length / players.length
  let init := initialHands shuffledCards players cardsPerPlayer
  distributeRemainder players init 0
    (shuffledCards.drop (players.length * cardsPerPlayer))

/-- Result record of `compareCards`. -/
structure CompareResult where
  winner : String
  results : StrMap (String × Int)
deriving Repr, DecidableEq

/-- The `Object.entries(roundCards).forEach` loop of `compareCards`, with the
mutable `results`/`maxValue`/`winner` threaded explicitly. -/
def compareLoop (attr : String) (allCards : List Card) :
    List (String × String) → StrMap (String × Int) → Int → String → CompareResult
  | [], results, _, winner => ⟨winner, results⟩
  | e :: rest, results, maxValue, winner =>
    match allCards.find? (fun c => c.id == e.2) with
    | some card =>
      match lookupKey card.attributes attr with
      | some value =>
        let results2 := setKey results e.1 (e.2, value)
        if maxValue < value then
          compareLoop attr allCards rest results2 value e.1
        else
          compareLoop attr allCards rest results2 maxValue winner
      | none => compareLoop attr allCards rest results maxValue winner
    | none => compareLoop attr allCards rest results maxValue winner

/-- `compareCards` from `src/utils/gameUtils.ts`: fold over the plays with
`maxValue = -1` and `winner = ''`. -/
def compareCards (roundCards : StrMap String) (attr : String)
    (allCards : List Card) : CompareResult :=
  compareLoop attr allCards roundCards [] (-1) ""

/-- `checkGameEnd` from `src/utils/gameUtils.ts`: the nickname of the sole
`active` player, else `null`. -/
def checkGameEnd (players : StrMap Player) : Option String :=
  let activePlayers := (players.map Prod.snd).filter (fun p => p.status == .active)
  match activePlayers with
  | [p] => some p.nickname
  | _ => none

end gameUtils

namespace legacyGameUtils

/-- `checkGameEnd` of the earlier `gameUtils` iteration: keyed on
`playerCards`, it returns the key of the sole entry holding a non-empty
hand. -/
def checkGameEnd (playerCards : StrMap (List String)) : Option String :=
  let playersWithCards := playerCards.filter (fun e => 0 < e.2.length)
  match playersWithCards with
  | [e] => some e.1
  | _ => none

end legacyGameUtils

/-- The card-removal loop shared by `processRoundResult` and
`collectWinningsAndPrepareNextRound`: for every play, the played card id is
filtered out of the owner's hand.  A missing hand makes the JS
`updatedPlayerCards[player].filter` throw, hence `none`. -/
def removePlayedOpt (roundCards : StrMap String) (pc : StrMap (List String)) :
    Option (StrMap (List String)) :=
  roundCards.foldl
    (fun acc e =>
      acc.bind (fun pc2 =>
        (lookupKey pc2 e.1).map
          (fun hand => setKey pc2 e.1 (hand.filter (fun id => !(id == e.2))))))
    (some pc)

namespace gameService

/-- `startGame` of `src/services/gameService.ts`: deal, pick a random lead
(the `pick` parameter models `selectRandomPlayer`) and build the initial
`GameState` written to `games/{roomId}`. -/
def startGame (shuffle : List Card → List Card) (pick : List String → String)
    (players : List String) (cards : List Card) : GameState :=
  let playerCards := gameUtils.distributeCards shuffle cards players
  let firstPlayer := pick players
  { currentRound := 1
    currentPlayer := some firstPlayer
    gamePhase := .spinning
    playerCards := playerCards
    currentRoundCards := []
    selectedAttribute := none
    roundWinner := none
    gameWinner := none
    roundHistory := []
    spinResult := some firstPlayer }

/-- `playCard` of `src/services/gameService.ts`: record the play, then — if
the number of submitted cards equals the number of `active` players in the
room snapshot — advance `gamePhase` to `animating-play`. -/
def playCard (roomPlayers : StrMap Player) (s : GameState)
    (playerNickname : String) (cardId : String) : GameState :=
  let totalActivePlayers :=
    ((roomPlayers.map Prod.snd).filter (fun p => p.status == .active)).length
  let updatedCards := setKey s.currentRoundCards playerNickname cardId
  { s with
    currentRoundCards := updatedCards
    gamePhase :=
      if updatedCards.length = totalActivePlayers then .animatingPlay
      else s.gamePhase }

/-- `startNextRound` of `src/services/gameService.ts`: bump the round, make
the round winner the next lead, and reset the per-round fields. -/
def startNextRound (s : GameState) : GameState :=
  { s with
    currentRound := s.currentRound + 1
    currentPlayer := s.roundWinner
    gamePhase := .selecting
    currentRoundCards := []
    selectedAttribute := none
    roundWinner := none }

/-- `collectWinningsAndPrepareNextRound` of `src/services/gameService.ts` up
to its store write: `none` models the early `return` on a falsy
`roundWinner`/`selectedAttribute` or a throw in the removal loop.  `shuffle`
models the `shuffleArray` call on the winner's new pile and `now` the
`new Date().toISOString()` timestamp. -/
def collectWinningsAndPrepareNextRound (shuffle : List String → List String)
    (now : String) (s : GameState) (players : StrMap Player)
    (allCards : List Card) : Option (GameState × StrMap Player) :=
  match s.roundWinner, s.selectedAttribute with
  | some winner, some attr =>
    if winner = "" ∨ attr = "" then none
    else
      let res := gameUtils.compareCards s.currentRoundCards attr allCards
      let roundResult : RoundResult :=
        { roundNumber := s.currentRound
          selectedAttribute := attr
          playerCards := res.results
          winner := winner
          timestamp := now }
      (removePlayedOpt s.currentRoundCards s.playerCards).map (fun removed =>
        let playedCards := s.currentRoundCards.map Prod.snd
        let collected :=
          setKey removed winner
            (shuffle ((lookupKey removed winner).getD [] ++ playedCards))
        let players2 := players.map (fun e =>
          if ((lookupKey collected e.1).map List.length == some 0)
              && (e.2.status == .active) then
            (e.1, { e.2 with status := Status.eliminated })
          else e)
        let gameWinner := gameUtils.checkGameEnd players2
        ({ s with
            playerCards := collected
            roundHistory := s.roundHistory ++ [roundResult]
            gamePhase := .animatingWin
            gameWinner := gameWinner }, players2))
  | _, _ => none

/-- The collect step together with its scheduled `setTimeout` continuation:
`gamePhase := 'finished'` when a (truthy) `gameWinner` was computed,
otherwise `startNextRound`.  When the collect step itself did not run, no
timer is scheduled and nothing changes. -/
def collectFinish (shuffle : List String → List String) (now : String)
    (s : GameState) (players : StrMap Player) (allCards : List Card) :
    GameState × StrMap Player :=
  match collectWinningsAndPrepareNextRound shuffle now s players allCards with
  | none => (s, players)
  | some (s2, players2) =>
    if s2.gameWinner.getD "" ≠ "" then ({ s2 with gamePhase := .finished }, players2)
    else (startNextRound s2, players2)

end gameService

namespace legacyGameService

/-- `processRoundResult` of the earliest `gameService` iteration: compare,
build the round record, move the played cards to the winner and write
everything back.  `none` models a throw (missing `selectedAttribute`, or an
undefined hand — in particular `updatedPlayerCards[winner]` when the winner
key is absent, whose spread raises a `TypeError`) in which case no store
write happens. -/
def processRoundResult (now : String) (s : GameState) (allCards : List Card) :
    Option GameState :=
  match s.selectedAttribute with
  | none => none
  | some attr =>
    let res := gameUtils.compareCards s.currentRoundCards attr allCards
    let roundResult : RoundResult :=
      { roundNumber := s.currentRound
        selectedAttribute := attr
        playerCards := res.results
        winner := res.winner
        timestamp := now }
    (removePlayedOpt s.currentRoundCards s.playerCards).bind (fun removed =>
      (lookupKey removed res.winner).map (fun winnerHand =>
        let playedCards := s.currentRoundCards.map Prod.snd
        let updated := setKey removed res.winner (winnerHand ++ playedCards)
        let gameWinner := legacyGameUtils.checkGameEnd updated
        { s with
          roundWinner := some res.winner
          gameWinner := gameWinner
          playerCards := updated
          roundHistory := s.roundHistory ++ [roundResult]
          gamePhase := if gameWinner.getD "" ≠ "" then .finished else .comparing
          currentPlayer := some res.winner }))

end legacyGameService

namespace gameScreen

/-- Outcome of the match-start flow on `GameScreen`: a surfaced blocking
error (`Alert.alert`), a silent refusal to run, or a started match whose
state is written to the store. -/
inductive StartOutcome where
  | error (msg : String)
  | noop
  | started (gs : GameState)
deriving Repr, DecidableEq

/-- `handleStartGame` of `src/screens/GameScreen.tsx`: alert when the room
data is missing or fewer than 2 players are present, otherwise call
`startGame`. -/
def handleStartGame (shuffle : List Card → List Card)
    (pick : List String → String) (currentRoom : Option (StrMap Player))
    (cards : List Card) : StartOutcome :=
  match currentRoom with
  | none => .error "Dados da sala não estão disponíveis"
  | some roomPlayers =>
    let players := roomPlayers.map Prod.fst
    if players.length < 2 then
      .error "É necessário pelo menos 2 jogadores para iniciar"
    else
      .started (gameService.startGame shuffle pick players cards)

/-- The auto-start effect of `GameScreen`: it refuses to run (silently) when
the room is missing, the deck is empty, the game already started, or the
local player is not the host; only then does it invoke `handleStartGame`. -/
def autoStartEffect (shuffle : List Card → List Card)
    (pick : List String → String) (currentRoom : Option (StrMap Player))
    (allCards : List Card) (gameStarted : Bool) (isHost : Bool) :
    StartOutcome :=
  match currentRoom with
  | none => .noop
  | some roomPlayers =>
    if allCards.isEmpty then .noop
    else if gameStarted then .noop
    else if !isHost then .noop
    else handleStartGame shuffle pick (some roomPlayers) allCards

end gameScreen

theorem lookupKey_nil {α : Type} (k : String) : lookupKey ([] : StrMap α) k = none := rfl

theorem lookupKey_cons {α : Type} (k' : String) (v : α) (m : StrMap α) (k : String) :
    lookupKey ((k', v) :: m) k = if k' = k then some v else lookupKey m k := by
  by_cases h : k' = k
  · simp [lookupKey, List.find?_cons_of_pos, h]
  · simp [lookupKey, List.find?_cons_of_neg, h]

theorem lookupKey_eq_none_iff {α : Type} (m : StrMap α) (k : String) :
    lookupKey m k = none ↔ ∀ e ∈ m, e.1 ≠ k := by
  simp [lookupKey, List.find?_eq_none]

theorem any_key_eq_false {α : Type} (m : StrMap α) (k : String)
    (h : lookupKey m k = none) : m.any (fun e => e.1 == k) = false := by
  rw [lookupKey_eq_none_iff] at h
  simp only [List.any_eq_false]
  intro e he
  simpa using h e he

theorem any_key_eq_true {α : Type} (m : StrMap α) (k : String) (v : α)
    (h : lookupKey m k = some v) : m.any (fun e => e.1 == k) = true := by
  unfold lookupKey at h
  rcases Option.map_eq_some'.1 h with ⟨e, he, _⟩
  have := List.find?_some he
  exact List.any_eq_true.2 ⟨e, List.mem_of_find?_eq_some he, this⟩

theorem setKey_of_absent {α : Type} (m : StrMap α) (k : String) (v : α)
    (h : lookupKey m k = none) : setKey m k v = m ++ [(k, v)] := by
  unfold setKey
  rw [any_key_eq_false m k h]
  simp

theorem setKey_of_present {α : Type} (m : StrMap α) (k : String) (v w : α)
    (h : lookupKey m k = some w) :
    setKey m k v = m.map (fun e => if e.1 == k then (k, v) else e) := by
  unfold setKey
  rw [any_key_eq_true m k w h]
  simp

theorem lookupKey_map_replace_self {α : Type} (m : StrMap α) (k : String) (v : α) :
    (lookupKey m k).isSome →
      lookupKey (m.map (fun e => if e.1 == k then (k, v) else e)) k = some v := by
  induction m with
  | nil => simp [lookupKey]
  | cons e m ih =>
    intro hsome
    by_cases hek : e.1 = k
    · rw [List.map_cons, if_pos (by simpa using hek), lookupKey_cons, if_pos rfl]
    · rw [List.map_cons, if_neg (by simpa using hek), lookupKey_cons, if_neg hek]
      rcases e with ⟨k', w⟩
      rw [lookupKey_cons, if_neg hek] at hsome
      exact ih hsome

theorem lookupKey_map_replace_ne {α : Type} (m : StrMap α) (k k' : String) (v : α)
    (h : k' ≠ k) :
    lookupKey (m.map (fun e => if e.1 == k then (k, v) else e)) k' = lookupKey m k' := by
  induction m with
  | nil => simp
  | cons e m ih =>
    rcases e with ⟨k₀, w⟩
    by_cases hek : k₀ = k
    · rw [List.map_cons, if_pos (by simpa using hek), lookupKey_cons, lookupKey_cons]
      rw [if_neg (fun hh => h hh.symm), if_neg (by rw [hek]; exact fun hh => h hh.symm)]
      exact ih
    · rw [List.map_cons, if_neg (by simpa using hek), lookupKey_cons, lookupKey_cons]
      by_cases hk' : k₀ = k'
      · rw [if_pos hk', if_pos hk']
      · rw [if_neg hk', if_neg hk']
        exact ih

theorem lookupKey_append {α : Type} (m₁ m₂ : StrMap α) (k : String) :
    lookupKey (m₁ ++ m₂) k =
      match lookupKey m₁ k with
      | some v => some v
      | none => lookupKey m₂ k := by
  induction m₁ with
  | nil => simp [lookupKey]
  | cons e m ih =>
    rcases e with ⟨k', v⟩
    by_cases h : k' = k
    · simp [lookupKey_cons, h]
    · simp only [List.cons_append, lookupKey_cons, if_neg h, ih]

theorem lookupKey_setKey_self {α : Type} (m : StrMap α) (k : String) (v : α) :
    lookupKey (setKey m k v) k = some v := by
  cases hm : lookupKey m k with
  | none =>
    rw [setKey_of_absent m k v hm, lookupKey_append, hm, lookupKey_cons, if_pos rfl]
  | some w =>
    rw [setKey_of_present m k v w hm]
    exact lookupKey_map_replace_self m k v (by rw [hm]; rfl)

theorem lookupKey_setKey_ne {α : Type} (m : StrMap α) (k k' : String) (v : α)
    (h : k' ≠ k) : lookupKey (setKey m k v) k' = lookupKey m k' := by
  cases hm : lookupKey m k with
  | none =>
    rw [setKey_of_absent m k v hm, lookupKey_append, lookupKey_cons, if_neg (fun hh => h hh.symm)]
    cases hm' : lookupKey m k' <;> simp [lookupKey]
  | some w =>
    rw [setKey_of_present m k v w hm]
    exact lookupKey_map_replace_ne m k k' v h

theorem keys_map_replace {α : Type} (m : StrMap α) (k : String) (v : α) :
    (m.map (fun e => if e.1 == k then (k, v) else e)).map Prod.fst = m.map Prod.fst := by
  induction m with
  | nil => rfl
  | cons e m ih =>
    by_cases hek : e.1 = k
    · rw [List.map_cons, if_pos (by simpa using hek), List.map_cons, List.map_cons, ih]
      simp [hek]
    · rw [List.map_cons, if_neg (by simpa using hek), List.map_cons, List.map_cons, ih]

theorem keys_setKey_present {α : Type} (m : StrMap α) (k : String) (v w : α)
    (h : lookupKey m k = some w) :
    (setKey m k v).map Prod.fst = m.map Prod.fst := by
  rw [setKey_of_present m k v w h, keys_map_replace]

theorem keys_setKey_absent {α : Type} (m : StrMap α) (k : String) (v : α)
    (h : lookupKey m k = none) :
    (setKey m k v).map Prod.fst = m.map Prod.fst ++ [k] := by
  rw [setKey_of_absent m k v h, List.map_append]
  rfl

theorem setKey_setKey_same {α : Type} (m : StrMap α) (k : String) (v : α) :
    setKey (setKey m k v) k v = setKey m k v := by
  have h := lookupKey_setKey_self m k v
  rw [setKey_of_present (setKey m k v) k v v h]
  cases hm : lookupKey m k with
  | none =>
    rw [setKey_of_absent m k v hm, List.map_append]
    have h1 : (m.map (fun e => if e.1 == k then (k, v) else e)) = m :=
      (List.map_congr_left (fun e he => by
        have : e.1 ≠ k := (lookupKey_eq_none_iff m k).1 hm e he
        simp [this])).trans (List.map_id m)
    rw [h1]
    simp
  | some w =>
    rw [setKey_of_present m k v w hm]
    rw [List.map_map]
    apply List.map_congr_left
    intro e _
    simp only [Function.comp_apply]
    by_cases hek : e.1 = k
    · simp [hek]
    · simp [hek]

/-- A two-seat room with both players active, used for concrete instances. -/
def roomAB : StrMap Player := [("A", ⟨"A", .active⟩), ("B", ⟨"B", .active⟩)]

/-- A concrete mid-round state: both players already submitted and the round
is being compared on the table. -/
def stateComparing : GameState :=
  { currentRound := 1
    currentPlayer := some "A"
    gamePhase := .comparingOnTable
    playerCards := [("A", ["a2"]), ("B", ["b2"])]
    currentRoundCards := [("A", "a1"), ("B", "b1")]
    selectedAttribute := some "X"
    roundWinner := none
    gameWinner := none
    roundHistory := []
    spinResult := none }

/-- Claim C7: `playCard` is idempotent — submitting the same card for the
same player against the same room snapshot twice yields exactly the state of
a single submission. -/
theorem playCard_idempotent (roomPlayers : StrMap Player) (s : GameState)
    (p c : String) :
    gameService.playCard roomPlayers (gameService.playCard roomPlayers s p c) p c =
      gameService.playCard roomPlayers s p c := by
  unfold gameService.playCard
  simp only [setKey_setKey_same]
  by_cases h :
      (setKey s.currentRoundCards p c).length =
        ((roomPlayers.map Prod.snd).filter (fun q => q.status == .active)).length
  · simp [h]
  · simp [h]

/-- Claim C5: `playCard` records the play, and advances the phase to
`animating-play` exactly when the number of submitted cards equals the
number of room players whose status is `active` (eliminated seats are not
counted); otherwise the phase is left untouched. -/
theorem playCard_advance_iff_active_count (roomPlayers : StrMap Player)
    (s : GameState) (p c : String) :
    (gameService.playCard roomPlayers s p c).currentRoundCards =
        setKey s.currentRoundCards p c ∧
    ((setKey s.currentRoundCards p c).length =
        ((roomPlayers.map Prod.snd).filter (fun q => q.status == Status.active)).length →
      (gameService.playCard roomPlayers s p c).gamePhase = Phase.animatingPlay) ∧
    ((setKey s.currentRoundCards p c).length ≠
        ((roomPlayers.map Prod.snd).filter (fun q => q.status == Status.active)).length →
      (gameService.playCard roomPlayers s p c).gamePhase = s.gamePhase) := by
  refine ⟨rfl, fun h => ?_, fun h => ?_⟩
  · unfold gameService.playCard
    simp [h]
  · unfold gameService.playCard
    simp [h]

/-- Witness for C5 at a concrete input: when the second of two active
players submits, the phase advances to `animating-play`. -/
theorem playCard_advance_iff_active_count_witness :
    (gameService.playCard roomAB
      { stateComparing with gamePhase := .selecting, currentRoundCards := [("A", "a1")] }
      "B" "b1").gamePhase = Phase.animatingPlay :=
  (playCard_advance_iff_active_count roomAB
    { stateComparing with gamePhase := .selecting, currentRoundCards := [("A", "a1")] }
    "B" "b1").2.1 (by decide)

/-- Claim C6 (code bug): `playCard` is not a silent no-op outside the
`selecting` phase for a player who already submitted — re-sending the very
same play during `comparing-on-table` rewrites the phase back to
`animating-play`, changing the state. -/
theorem playCard_out_of_phase_not_noop :
    stateComparing.gamePhase = Phase.comparingOnTable ∧
    lookupKey stateComparing.currentRoundCards "A" = some "a1" ∧
    (gameService.playCard roomAB stateComparing "A" "a1").gamePhase =
      Phase.animatingPlay ∧
    gameService.playCard roomAB stateComparing "A" "a1" ≠ stateComparing := by
  decide

/-- Claim C8: after a resolved round (`roundWinner` set), `startNextRound`
makes the round winner the next lead, bumps `currentRound` by one, clears
the per-round fields and leaves `playerCards` and `roundHistory` alone. -/
theorem startNextRound_spec (s : GameState) (w : String)
    (hw : s.roundWinner = some w) :
    (gameService.startNextRound s).currentPlayer = some w ∧
    (gameService.startNextRound s).currentRound = s.currentRound + 1 ∧
    (gameService.startNextRound s).currentRoundCards = [] ∧
    (gameService.startNextRound s).selectedAttribute = none ∧
    (gameService.startNextRound s).roundWinner = none ∧
    (gameService.startNextRound s).playerCards = s.playerCards ∧
    (gameService.startNextRound s).roundHistory = s.roundHistory ∧
    (gameService.startNextRound s).gamePhase = Phase.selecting := by
  unfold gameService.startNextRound
  simp [hw]

/-- Witness for C8 at a concrete resolved state. -/
theorem startNextRound_spec_witness :
    (gameService.startNextRound { stateComparing with roundWinner := some "A" }).currentPlayer
      = some "A" :=
  (startNextRound_spec { stateComparing with roundWinner := some "A" } "A" rfl).1

/-- Claim C9, counterexample: with two ready players but an empty deck the
start flow silently refuses to run — no blocking error is surfaced to the
caller, contradicting the claim that every invalid start surfaces one. -/
theorem emptyDeck_start_counterexample :
    gameScreen.autoStartEffect id (fun l => l.getD 0 "") (some roomAB) [] false true =
      gameScreen.StartOutcome.noop ∧
    (roomAB.map Prod.fst).length = 2 := by
  decide

/-- Claim C9 (amended): with fewer than 2 players or an empty deck the match
never starts (no store write happens); the blocking error is surfaced
exactly in the fewer-than-2-players case with a non-empty deck — an empty
deck is refused silently by the auto-start effect. -/
theorem startGuard_spec (shuffle : List Card → List Card)
    (pick : List String → String) (roomPlayers : StrMap Player)
    (cards : List Card) (gameStarted isHost : Bool)
    (h : (roomPlayers.map Prod.fst).length < 2 ∨ cards = []) :
    (∀ gs, gameScreen.autoStartEffect shuffle pick (some roomPlayers) cards
        gameStarted isHost ≠ gameScreen.StartOutcome.started gs) ∧
    (cards ≠ [] → gameStarted = false → isHost = true →
      (roomPlayers.map Prod.fst).length < 2 →
      gameScreen.autoStartEffect shuffle pick (some roomPlayers) cards
          gameStarted isHost =
        gameScreen.StartOutcome.error "É necessário pelo menos 2 jogadores para iniciar") := by
  constructor
  · intro gs
    unfold gameScreen.autoStartEffect gameScreen.handleStartGame
    by_cases hc : cards.isEmpty
    · simp [hc]
    · have hlt : (roomPlayers.map Prod.fst).length < 2 := by
        rcases h with h | h
        · exact h
        · exact absurd (by simp [h]) hc
      have hlt2 : roomPlayers.length < 2 := by simpa using hlt
      cases gameStarted <;> cases isHost <;> simp [hc, hlt2]
  · intro hc hgs hh hlt
    cases cards with
    | nil => exact absurd rfl hc
    | cons c cs =>
      subst hgs; subst hh
      have hlt2 : roomPlayers.length < 2 := by simpa using hlt
      unfold gameScreen.autoStartEffect gameScreen.handleStartGame
      simp [hlt2]

/-- Witness for C9 at a concrete input: a one-player room with a non-empty
deck is refused with the blocking alert. -/
theorem startGuard_spec_witness :
    gameScreen.autoStartEffect id (fun l => l.getD 0 "")
        (some [("A", ⟨"A", Status.active⟩)]) [⟨"c", "c", []⟩] false true =
      gameScreen.StartOutcome.error "É necessário pelo menos 2 jogadores para iniciar" :=
  (startGuard_spec id (fun l => l.getD 0 "") [("A", ⟨"A", Status.active⟩)]
    [⟨"c", "c", []⟩] false true (Or.inl (by decide))).2 (by decide) rfl rfl (by decide)

/-- The plays `compareCards` keeps: those whose card id resolves in the
catalog and whose card carries the chosen attribute, in iteration order,
tagged with the card id and attribute value. -/
def consideredPlays (roundCards : StrMap String) (attr : String)
    (allCards : List Card) : List (String × String × Int) :=
  roundCards.filterMap (fun e =>
    match allCards.find? (fun c => c.id == e.2) with
    | some card => (lookupKey card.attributes attr).map (fun v => (e.1, e.2, v))
    | none => none)

/-- The earliest considered play whose value is greatest: the strict
arg-max with ties broken in favour of the earliest play. -/
def firstArgMax (l : List (String × String × Int)) :
    Option (String × String × Int) :=
  l.find? (fun e => l.all (fun f => f.2.2 ≤ e.2.2))

/-- The winner computation of `compareLoop`, restricted to the considered
plays. -/
def consideredLoopW : List (String × String × Int) → Int → String → String
  | [], _, w => w
  | e :: rest, maxV, w =>
    if maxV < e.2.2 then consideredLoopW rest e.2.2 e.1
    else consideredLoopW rest maxV w

theorem consideredPlays_cons_none (e : String × String)
    (rest : List (String × String)) (attr : String) (allCards : List Card)
    (hfind : allCards.find? (fun c => c.id == e.2) = none) :
    consideredPlays (e :: rest) attr allCards = consideredPlays rest attr allCards := by
  simp only [consideredPlays, List.filterMap_cons, hfind]

theorem consideredPlays_cons_noattr (e : String × String)
    (rest : List (String × String)) (attr : String) (allCards : List Card)
    (card : Card) (hfind : allCards.find? (fun c => c.id == e.2) = some card)
    (hattr : lookupKey card.attributes attr = none) :
    consideredPlays (e :: rest) attr allCards = consideredPlays rest attr allCards := by
  simp only [consideredPlays, List.filterMap_cons, hfind, hattr, Option.map_none']

theorem consideredPlays_cons_some (e : String × String)
    (rest : List (String × String)) (attr : String) (allCards : List Card)
    (card : Card) (v : Int) (hfind : allCards.find? (fun c => c.id == e.2) = some card)
    (hattr : lookupKey card.attributes attr = some v) :
    consideredPlays (e :: rest) attr allCards =
      (e.1, e.2, v) :: consideredPlays rest attr allCards := by
  simp only [consideredPlays, List.filterMap_cons, hfind, hattr, Option.map_some']

theorem compareLoop_cons_none (attr : String) (allCards : List Card)
    (e : String × String) (rest : List (String × String))
    (results : StrMap (String × Int)) (maxV : Int) (w : String)
    (hfind : allCards.find? (fun c => c.id == e.2) = none) :
    gameUtils.compareLoop attr allCards (e :: rest) results maxV w =
      gameUtils.compareLoop attr allCards rest results maxV w := by
  simp only [gameUtils.compareLoop, hfind]

theorem compareLoop_cons_noattr (attr : String) (allCards : List Card)
    (e : String × String) (rest : List (String × String))
    (results : StrMap (String × Int)) (maxV : Int) (w : String)
    (card : Card) (hfind : allCards.find? (fun c => c.id == e.2) = some card)
    (hattr : lookupKey card.attributes attr = none) :
    gameUtils.compareLoop attr allCards (e :: rest) results maxV w =
      gameUtils.compareLoop attr allCards rest results maxV w := by
  simp only [gameUtils.compareLoop, hfind, hattr]

theorem compareLoop_cons_some (attr : String) (allCards : List Card)
    (e : String × String) (rest : List (String × String))
    (results : StrMap (String × Int)) (maxV : Int) (w : String)
    (card : Card) (v : Int) (hfind : allCards.find? (fun c => c.id == e.2) = some card)
    (hattr : lookupKey card.attributes attr = some v) :
    gameUtils.compareLoop attr allCards (e :: rest) results maxV w =
      if maxV < v then
        gameUtils.compareLoop attr allCards rest (setKey results e.1 (e.2, v)) v e.1
      else
        gameUtils.compareLoop attr allCards rest (setKey results e.1 (e.2, v)) maxV w := by
  simp only [gameUtils.compareLoop, hfind, hattr]

theorem compareLoop_winner (attr : String) (allCards : List Card) :
    ∀ (plays : List (String × String)) (results : StrMap (String × Int))
      (maxV : Int) (w : String),
      (gameUtils.compareLoop attr allCards plays results maxV w).winner =
        consideredLoopW (consideredPlays plays attr allCards) maxV w := by
  intro plays
  induction plays with
  | nil => intro results maxV w; rfl
  | cons e rest ih =>
    intro results maxV w
    cases hfind : allCards.find? (fun c => c.id == e.2) with
    | none =>
      rw [compareLoop_cons_none attr allCards e rest results maxV w hfind,
        consideredPlays_cons_none e rest attr allCards hfind]
      exact ih results maxV w
    | some card =>
      cases hattr : lookupKey card.attributes attr with
      | none =>
        rw [compareLoop_cons_noattr attr allCards e rest results maxV w card hfind hattr,
          consideredPlays_cons_noattr e rest attr allCards card hfind hattr]
        exact ih results maxV w
      | some v =>
        rw [compareLoop_cons_some attr allCards e rest results maxV w card v hfind hattr,
          consideredPlays_cons_some e rest attr allCards card v hfind hattr]
        by_cases hlt : maxV < v
        · rw [if_pos hlt, consideredLoopW, if_pos hlt]
          exact ih _ v e.1
        · rw [if_neg hlt, consideredLoopW, if_neg hlt]
          exact ih _ maxV w

theorem compareLoop_results (attr : String) (allCards : List Card) :
    ∀ (plays : List (String × String)) (results : StrMap (String × Int))
      (maxV : Int) (w : String),
      (plays.map Prod.fst).Nodup →
      (∀ p, p ∈ plays.map Prod.fst → lookupKey results p = none) →
      (gameUtils.compareLoop attr allCards plays results maxV w).results =
        results ++
          (consideredPlays plays attr allCards).map (fun e => (e.1, (e.2.1, e.2.2))) := by
  intro plays
  induction plays with
  | nil => intro results maxV w _ _; simp [gameUtils.compareLoop, consideredPlays]
  | cons e rest ih =>
    intro results maxV w hnd hfresh
    have hnd1 : (e.1 :: rest.map Prod.fst).Nodup := by
      rw [List.map_cons] at hnd; exact hnd
    have hnd' : (rest.map Prod.fst).Nodup := (List.nodup_cons.1 hnd1).2
    have hout : e.1 ∉ rest.map Prod.fst := (List.nodup_cons.1 hnd1).1
    cases hfind : allCards.find? (fun c => c.id == e.2) with
    | none =>
      rw [compareLoop_cons_none attr allCards e rest results maxV w hfind,
        consideredPlays_cons_none e rest attr allCards hfind]
      exact ih results maxV w hnd' (fun p hp => hfresh p (by simp [hp]))
    | some card =>
      cases hattr : lookupKey card.attributes attr with
      | none =>
        rw [compareLoop_cons_noattr attr allCards e rest results maxV w card hfind hattr,
          consideredPlays_cons_noattr e rest attr allCards card hfind hattr]
        exact ih results maxV w hnd' (fun p hp => hfresh p (by simp [hp]))
      | some v =>
        rw [compareLoop_cons_some attr allCards e rest results maxV w card v hfind hattr,
          consideredPlays_cons_some e rest attr allCards card v hfind hattr]
        have hre : lookupKey results e.1 = none := hfresh e.1 (by simp)
        have hset : setKey results e.1 (e.2, v) = results ++ [(e.1, (e.2, v))] :=
          setKey_of_absent results e.1 (e.2, v) hre
        have hfresh2 : ∀ p, p ∈ rest.map Prod.fst →
            lookupKey (setKey results e.1 (e.2, v)) p = none := by
          intro p hp
          have hne : p ≠ e.1 := fun hpe => hout (hpe ▸ hp)
          rw [lookupKey_setKey_ne results e.1 p (e.2, v) hne]
          exact hfresh p (by simp [hp])
        have step : ∀ (maxV' : Int) (w' : String),
            (gameUtils.compareLoop attr allCards rest (setKey results e.1 (e.2, v)) maxV' w').results =
              results ++ ((e.1, (e.2, v)) ::
                (consideredPlays rest attr allCards).map (fun f => (f.1, (f.2.1, f.2.2)))) := by
          intro maxV' w'
          rw [ih _ maxV' w' hnd' hfresh2, hset, List.append_assoc]
          rfl
        by_cases hlt : maxV < v
        · rw [if_pos hlt]
          simpa using step v e.1
        · rw [if_neg hlt]
          simpa using step maxV w

theorem consideredLoopW_const :
    ∀ (l : List (String × String × Int)) (maxV : Int) (w : String),
      (∀ e ∈ l, e.2.2 ≤ maxV) → consideredLoopW l maxV w = w := by
  intro l
  induction l with
  | nil => intro maxV w _; rfl
  | cons e rest ih =>
    intro maxV w h
    rw [consideredLoopW, if_neg (not_lt.2 (h e (by simp)))]
    exact ih maxV w (fun f hf => h f (by simp [hf]))

theorem find?_congr_mem {α : Type} (l : List α) (p q : α → Bool)
    (h : ∀ x ∈ l, p x = q x) : l.find? p = l.find? q := by
  induction l with
  | nil => rfl
  | cons a l ih =>
    cases hpa : p a with
    | true =>
      rw [List.find?_cons_of_pos _ hpa, List.find?_cons_of_pos _ (by rw [← h a (by simp)]; exact hpa)]
    | false =>
      rw [List.find?_cons_of_neg _ (by simp [hpa]),
        List.find?_cons_of_neg _ (by rw [← h a (by simp), hpa]; simp)]
      exact ih (fun x hx => h x (by simp [hx]))

theorem exists_argmax :
    ∀ (l : List (String × String × Int)), l ≠ [] →
      ∃ e ∈ l, ∀ f ∈ l, f.2.2 ≤ e.2.2 := by
  intro l
  induction l with
  | nil => intro h; exact absurd rfl h
  | cons x rest ih =>
    intro _
    cases rest with
    | nil => exact ⟨x, by simp⟩
    | cons y t =>
      rcases ih (by simp) with ⟨e, he, hmax⟩
      by_cases hxe : x.2.2 ≤ e.2.2
      · refine ⟨e, by simp [he], ?_⟩
        intro f hf
        rcases List.mem_cons.1 hf with rfl | hf'
        · exact hxe
        · exact hmax f hf'
      · refine ⟨x, by simp, ?_⟩
        intro f hf
        rcases List.mem_cons.1 hf with rfl | hf'
        · exact le_refl _
        · exact le_trans (hmax f hf') (le_of_not_le hxe)

theorem consideredLoopW_find :
    ∀ (l : List (String × String × Int)) (maxV : Int) (w : String)
      (p : String × String × Int),
      (∃ f ∈ l, maxV < f.2.2) →
      l.find? (fun e => l.all (fun f => f.2.2 ≤ e.2.2)) = some p →
      consideredLoopW l maxV w = p.1 := by
  intro l
  induction l with
  | nil => intro maxV w p hex _; simp at hex
  | cons e rest ih =>
    intro maxV w p hex hfind
    rcases List.find?_cons_eq_some.1 hfind with ⟨hpa, rfl⟩ | ⟨hpa, hrest⟩
    · have hpe : ∀ f ∈ e :: rest, f.2.2 ≤ e.2.2 := by
        intro f hf
        have := List.all_eq_true.1 hpa f hf
        simpa using this
      rcases hex with ⟨f, hf, hmf⟩
      have hme : maxV < e.2.2 := lt_of_lt_of_le hmf (hpe f hf)
      rw [consideredLoopW, if_pos hme]
      exact consideredLoopW_const rest e.2.2 e.1 (fun f hf => hpe f (by simp [hf]))
    · have hpe : ¬ ∀ f ∈ e :: rest, f.2.2 ≤ e.2.2 := by
        intro hall
        have : ((e :: rest).all (fun f => f.2.2 ≤ e.2.2)) = true :=
          List.all_eq_true.2 (fun f hf => decide_eq_true (hall f hf))
        simp [this] at hpa
      push_neg at hpe
      rcases hpe with ⟨g, hg, hge⟩
      have hgrest : g ∈ rest := by
        rcases List.mem_cons.1 hg with rfl | h
        · exact absurd (le_refl _) (not_le.2 hge)
        · exact h
      have hcongr :
          rest.find? (fun x => (e :: rest).all (fun f => f.2.2 ≤ x.2.2)) =
            rest.find? (fun x => rest.all (fun f => f.2.2 ≤ x.2.2)) := by
        apply find?_congr_mem
        intro x hx
        cases hrx : rest.all (fun f => f.2.2 ≤ x.2.2) with
        | true =>
          have hgx : g.2.2 ≤ x.2.2 := by
            have := List.all_eq_true.1 hrx g hgrest
            simpa using this
          have hex2 : e.2.2 ≤ x.2.2 := le_trans (le_of_lt hge) hgx
          rw [List.all_cons, hrx]
          simp [hex2]
        | false =>
          rw [List.all_cons, hrx]
          simp
      rw [hcongr] at hrest
      by_cases hm : maxV < e.2.2
      · rw [consideredLoopW, if_pos hm]
        exact ih e.2.2 e.1 p ⟨g, hgrest, hge⟩ hrest
      · rw [consideredLoopW, if_neg hm]
        rcases hex with ⟨f, hf, hmf⟩
        have hfrest : f ∈ rest := by
          rcases List.mem_cons.1 hf with rfl | h
          · exact absurd hmf hm
          · exact h
        exact ih maxV w p ⟨f, hfrest, hmf⟩ hrest

/-- Claim C1, counterexample: with a (negative) attribute value of `-5`, the
sole considered player `A` has the strictly greatest value yet is not
returned as winner — the `-1` sentinel of `compareCards` beats every value
`≤ -1`, so the claim fails on catalogs with negative values. -/
theorem compareCards_negative_counterexample :
    (gameUtils.compareCards [("A", "c1")] "X" [⟨"c1", "c1", [("X", -5)]⟩]).results
      = [("A", ("c1", -5))] ∧
    (gameUtils.compareCards [("A", "c1")] "X" [⟨"c1", "c1", [("X", -5)]⟩]).winner ≠ "A" := by
  decide

/-- Claim C1 (amended): for every plays map (with the JS-object guarantee of
distinct keys) whose considered attribute values are nonnegative,
`compareCards` keeps exactly the plays whose card resolves in the catalog
and carries the chosen attribute, and returns as winner the considered
player with the strictly greatest value, ties broken in favour of the
earliest player in iteration order (the empty-winner `''` occurs exactly
when no play is considered).  Being a pure function it is deterministic. -/
theorem compareCards_spec (roundCards : StrMap String) (attr : String)
    (allCards : List Card)
    (hk : (roundCards.map Prod.fst).Nodup)
    (hnn : ∀ e ∈ consideredPlays roundCards attr allCards, 0 ≤ e.2.2) :
    (gameUtils.compareCards roundCards attr allCards).results =
      (consideredPlays roundCards attr allCards).map (fun e => (e.1, (e.2.1, e.2.2))) ∧
    (consideredPlays roundCards attr allCards = [] →
      (gameUtils.compareCards roundCards attr allCards).winner = "") ∧
    (∀ p, firstArgMax (consideredPlays roundCards attr allCards) = some p →
      (gameUtils.compareCards roundCards attr allCards).winner = p.1) ∧
    (consideredPlays roundCards attr allCards ≠ [] →
      ∃ p, firstArgMax (consideredPlays roundCards attr allCards) = some p) := by
  refine ⟨?_, ?_, ?_, ?_⟩
  · rw [gameUtils.compareCards,
      compareLoop_results attr allCards roundCards [] (-1) "" hk
        (fun p _ => lookupKey_nil p)]
    simp
  · intro hempty
    rw [gameUtils.compareCards, compareLoop_winner, hempty]
    rfl
  · intro p hp
    rw [gameUtils.compareCards, compareLoop_winner]
    have hpmem : p ∈ consideredPlays roundCards attr allCards :=
      List.mem_of_find?_eq_some hp
    have hpnn : (0 : Int) ≤ p.2.2 := hnn p hpmem
    exact consideredLoopW_find _ (-1) "" p
      ⟨p, hpmem, lt_of_lt_of_le (by norm_num) hpnn⟩ hp
  · intro hne
    rcases exists_argmax _ hne with ⟨e, he, hmax⟩
    have : ((consideredPlays roundCards attr allCards).all
        (fun f => f.2.2 ≤ e.2.2)) = true :=
      List.all_eq_true.2 (fun f hf => decide_eq_true (hmax f hf))
    have hsome : ((consideredPlays roundCards attr allCards).find?
        (fun x => (consideredPlays roundCards attr allCards).all
          (fun f => f.2.2 ≤ x.2.2))).isSome :=
      List.find?_isSome.2 ⟨e, he, this⟩
    rcases Option.isSome_iff_exists.1 hsome with ⟨p, hp⟩
    exact ⟨p, hp⟩

/-- Witness for C1 at the claim's own example `{A:10, B:30, C:20}` on
attribute `X`: the winner is `B`. -/
theorem compareCards_spec_witness :
    (gameUtils.compareCards [("A", "a"), ("B", "b"), ("C", "c")] "X"
      [⟨"a", "a", [("X", 10)]⟩, ⟨"b", "b", [("X", 30)]⟩, ⟨"c", "c", [("X", 20)]⟩]).winner
      = "B" :=
  (compareCards_spec [("A", "a"), ("B", "b"), ("C", "c")] "X"
    [⟨"a", "a", [("X", 10)]⟩, ⟨"b", "b", [("X", 30)]⟩, ⟨"c", "c", [("X", 20)]⟩]
    (by decide) (by decide)).2.2.1 ("B", ("b", 30)) (by decide)

theorem setKey_decomp {α : Type} (l1 l2 : StrMap α) (k : String) (h v : α)
    (h1 : k ∉ l1.map Prod.fst) (h2 : k ∉ l2.map Prod.fst) :
    setKey (l1 ++ (k, h) :: l2) k v = l1 ++ (k, v) :: l2 := by
  have hany : (l1 ++ (k, h) :: l2).any (fun e => e.1 == k) = true :=
    List.any_eq_true.2 ⟨(k, h), by simp, by simp⟩
  unfold setKey
  rw [hany]
  simp only [if_true, List.map_append, List.map_cons]
  have e1 : l1.map (fun e => if e.1 == k then (k, v) else e) = l1 :=
    (List.map_congr_left (fun e he => by
      have : e.1 ≠ k := fun hh => h1 (hh ▸ List.mem_map_of_mem Prod.fst he)
      simp [this])).trans (List.map_id l1)
  have e2 : l2.map (fun e => if e.1 == k then (k, v) else e) = l2 :=
    (List.map_congr_left (fun e he => by
      have : e.1 ≠ k := fun hh => h2 (hh ▸ List.mem_map_of_mem Prod.fst he)
      simp [this])).trans (List.map_id l2)
  rw [e1, e2]
  simp

theorem foldl_setKey_fresh {α : Type} (g : Nat → α) :
    ∀ (l : List (Nat × String)) (acc : StrMap α),
      (l.map Prod.snd).Nodup →
      (∀ ie ∈ l, lookupKey acc ie.2 = none) →
      l.foldl (fun pc ie => setKey pc ie.2 (g ie.1)) acc =
        acc ++ l.map (fun ie => (ie.2, g ie.1)) := by
  intro l
  induction l with
  | nil => intro acc _ _; simp
  | cons ie rest ih =>
    intro acc hnd hfresh
    have hnd1 : (ie.2 :: rest.map Prod.snd).Nodup := by
      rw [List.map_cons] at hnd; exact hnd
    have hset : setKey acc ie.2 (g ie.1) = acc ++ [(ie.2, g ie.1)] :=
      setKey_of_absent acc ie.2 (g ie.1) (hfresh ie (by simp))
    have hfresh2 : ∀ je ∈ rest, lookupKey (acc ++ [(ie.2, g ie.1)]) je.2 = none := by
      intro je hje
      rw [lookupKey_append, hfresh je (by simp [hje]), lookupKey_cons]
      rw [if_neg (fun hh => (List.nodup_cons.1 hnd1).1
        (by rw [hh]; exact List.mem_map_of_mem Prod.snd hje))]
      rfl
    rw [List.foldl_cons, hset, ih _ (List.nodup_cons.1 hnd1).2 hfresh2,
      List.append_assoc]
    rfl

theorem initialHands_eq (S : List Card) (players : List String) (q : Nat)
    (hnd : players.Nodup) :
    gameUtils.initialHands S players q =
      players.enum.map (fun ie => (ie.2, gameUtils.sliceIds S q ie.1)) := by
  unfold gameUtils.initialHands
  rw [foldl_setKey_fresh (gameUtils.sliceIds S q) players.enum []
    (by rw [List.enum_eq_enumFrom, List.enumFrom_map_snd]; exact hnd)
    (fun ie _ => rfl)]
  rfl

theorem join_slices (L : List String) (q : Nat) :
    ∀ n : Nat, ((List.range n).map (fun i => (L.drop (i * q)).take q)).flatten =
      L.take (n * q) := by
  intro n
  induction n with
  | zero => simp
  | succ n ih =>
    rw [List.range_succ, List.map_append, List.flatten_append, ih]
    simp only [List.map_cons, List.map_nil, List.flatten_cons, List.flatten_nil,
      List.append_nil]
    rw [Nat.succ_mul, List.take_add]

theorem zipWith_push_map_fst {α : Type} :
    ∀ (X : List (String × List String)) (Y : List α) (g : α → String),
      ((List.zipWith (fun e c => (e.1, e.2 ++ [g c])) X Y).map Prod.fst) =
        (X.take Y.length).map Prod.fst := by
  intro X
  induction X with
  | nil => intro Y g; simp
  | cons x Xs ih =>
    intro Y g
    cases Y with
    | nil => simp
    | cons y Ys => simp [ih Ys g]

theorem zipWith_push_join_perm {α : Type} :
    ∀ (X : List (String × List String)) (Y : List α) (g : α → String),
      X.length = Y.length →
      ((List.zipWith (fun e c => (e.1, e.2 ++ [g c])) X Y).map Prod.snd).flatten.Perm
        ((X.map Prod.snd).flatten ++ Y.map g) := by
  intro X
  induction X with
  | nil =>
    intro Y g h
    cases Y with
    | nil => simp
    | cons y Ys => simp at h
  | cons x Xs ih =>
    intro Y g h
    cases Y with
    | nil => simp at h
    | cons y Ys =>
      simp only [List.zipWith_cons_cons, List.map_cons, List.flatten_cons]
      refine List.Perm.trans (List.Perm.append_left (x.2 ++ [g y]) (ih Ys g (by simpa using h))) ?_
      have step : List.Perm (([g y] ++ (Xs.map Prod.snd).flatten) ++ Ys.map g)
          (((Xs.map Prod.snd).flatten ++ [g y]) ++ Ys.map g) :=
        List.Perm.append_right (Ys.map g) List.perm_append_comm
      simpa [List.append_assoc] using List.Perm.append_left x.2 step

theorem distributeRemainder_eq (players : List String) (hnd : players.Nodup) :
    ∀ (rest : List Card) (k : Nat) (acc : StrMap (List String)),
      acc.map Prod.fst = players →
      k + rest.length ≤ players.length →
      gameUtils.distributeRemainder players acc k rest =
        acc.take k ++
          (List.zipWith (fun (e : String × List String) (c : Card) => (e.1, e.2 ++ [c.id]))
            ((acc.drop k).take rest.length) rest) ++
          acc.drop (k + rest.length) := by
  intro rest
  induction rest with
  | nil =>
    intro k acc hkeys hlen
    simp [gameUtils.distributeRemainder]
  | cons c rest' ih =>
    intro k acc hkeys hlen
    have hacclen : acc.length = players.length := by
      rw [← hkeys, List.length_map]
    have hk : k < players.length := by
      simp only [List.length_cons] at hlen; omega
    have hka : k < acc.length := by omega
    have hkey : players.getD k "" = acc[k].1 := by
      have h1 : players.getD k "" = players[k] := by
        simp [List.getElem?_eq_getElem hk]
      rw [h1]
      simp [← hkeys]
    have htake_keys : (acc.take k).map Prod.fst = players.take k := by
      rw [List.map_take, hkeys]
    have hdrop_keys : (acc.drop (k + 1)).map Prod.fst = players.drop (k + 1) := by
      rw [List.map_drop, hkeys]
    have hpdecomp : players.take k ++ players[k] :: players.drop (k + 1) = players := by
      rw [← List.drop_eq_getElem_cons hk, List.take_append_drop]
    have hpk_acc : players[k] = acc[k].1 := by
      simp [← hkeys]
    have hnd2 : (players.take k ++ players[k] :: players.drop (k + 1)).Nodup := by
      rw [hpdecomp]; exact hnd
    have hnotin_take : acc[k].1 ∉ (acc.take k).map Prod.fst := by
      rw [htake_keys, ← hpk_acc]
      intro hmem
      rcases List.nodup_append.1 hnd2 with ⟨_, _, hdisj⟩
      exact hdisj hmem (List.mem_cons_self _ _)
    have hnotin_drop : acc[k].1 ∉ (acc.drop (k + 1)).map Prod.fst := by
      rw [hdrop_keys, ← hpk_acc]
      intro hmem
      rcases List.nodup_append.1 hnd2 with ⟨_, hcons, _⟩
      exact (List.nodup_cons.1 hcons).1 hmem
    have hadecomp : acc = acc.take k ++ acc[k] :: acc.drop (k + 1) := by
      conv_lhs => rw [← List.take_append_drop k acc, List.drop_eq_getElem_cons hka]
    obtain ⟨A, B, p, hacc, hAlen, hkeyp, hnotinA, hnotinB, hAkeys, hBkeys⟩ :
        ∃ (A B : StrMap (List String)) (p : String × List String),
          acc = A ++ p :: B ∧ A.length = k ∧ players.getD k "" = p.1 ∧
          p.1 ∉ A.map Prod.fst ∧ p.1 ∉ B.map Prod.fst ∧
          A.map Prod.fst = players.take k ∧ B.map Prod.fst = players.drop (k + 1) :=
      ⟨acc.take k, acc.drop (k + 1), acc[k], hadecomp,
        by rw [List.length_take]; omega,
        hkey, hnotin_take, hnotin_drop, htake_keys, hdrop_keys⟩
    have hplayers_decomp : A.map Prod.fst ++ p.1 :: B.map Prod.fst = players := by
      rw [hAkeys, hBkeys, hkeyp.symm.trans hkey, ← hpk_acc, hpdecomp]
    rw [hacc]
    have hlook : lookupKey (A ++ p :: B) (players.getD k "") = some p.2 := by
      rw [lookupKey_append]
      have h1 : lookupKey A (players.getD k "") = none :=
        (lookupKey_eq_none_iff _ _).2
          (fun e he hh => hnotinA (by
            rw [← hkeyp, ← hh]
            exact List.mem_map_of_mem Prod.fst he))
      rw [h1]
      rcases p with ⟨pk, pv⟩
      rw [lookupKey_cons, if_pos (by simpa using hkeyp.symm)]
    have hset : setKey (A ++ p :: B) (players.getD k "") (p.2 ++ [c.id]) =
        A ++ (p.1, p.2 ++ [c.id]) :: B := by
      rw [hkeyp]
      rcases p with ⟨pk, pv⟩
      exact setKey_decomp A B pk pv _ hnotinA hnotinB
    rw [gameUtils.distributeRemainder]
    simp only [hlook, hset]
    have htakeA : (A ++ p :: B).take k = A := by
      have : k = A.length + 0 := by omega
      rw [this, List.take_append 0]
      simp
    have hdropA : (A ++ p :: B).drop k = p :: B := by
      have : k = A.length + 0 := by omega
      rw [this, List.drop_append 0, List.drop_zero]
    have hdropk1 : (A ++ p :: B).drop (k + 1) = B := by
      have h : k + 1 = A.length + 1 := by omega
      rw [h, List.drop_append 1]
      rfl
    cases rest' with
    | nil =>
      rw [gameUtils.distributeRemainder, htakeA, hdropA]
      simp only [List.length_cons, List.length_nil, Nat.zero_add]
      rw [hdropk1]
      simp
    | cons c2 rest'' =>
      have hk1 : k + 1 < players.length := by
        simp only [List.length_cons] at hlen; omega
      rw [Nat.mod_eq_of_lt hk1]
      have hpc2keys : (A ++ (p.1, p.2 ++ [c.id]) :: B).map Prod.fst = players := by
        rw [List.map_append, List.map_cons]
        exact hplayers_decomp
      rw [ih (k + 1) (A ++ (p.1, p.2 ++ [c.id]) :: B) hpc2keys
        (by simp only [List.length_cons] at hlen ⊢; omega)]
      have e1 : (A ++ (p.1, p.2 ++ [c.id]) :: B).take (k + 1) =
          A ++ [(p.1, p.2 ++ [c.id])] := by
        have h : k + 1 = A.length + 1 := by omega
        rw [h, List.take_append 1]
        rfl
      have e2 : (A ++ (p.1, p.2 ++ [c.id]) :: B).drop (k + 1) = B := by
        have h : k + 1 = A.length + 1 := by omega
        rw [h, List.drop_append 1]
        rfl
      have e3 : (A ++ (p.1, p.2 ++ [c.id]) :: B).drop (k + 1 + (c2 :: rest'').length) =
          B.drop (c2 :: rest'').length := by
        have h : k + 1 + (c2 :: rest'').length = A.length + ((c2 :: rest'').length + 1) := by
          omega
        rw [h, List.drop_append, List.drop_succ_cons]
      have e4 : (A ++ p :: B).drop (k + (c :: c2 :: rest'').length) =
          B.drop (c2 :: rest'').length := by
        have h : k + (c :: c2 :: rest'').length = A.length + ((c2 :: rest'').length + 1) := by
          simp only [List.length_cons]; omega
        rw [h, List.drop_append, List.drop_succ_cons]
      rw [e1, e2, e3, htakeA, hdropA, e4]
      simp only [List.length_cons, List.take_succ_cons, List.zipWith_cons_cons]
      simp [List.append_assoc]

theorem zipWith_push_mem {α : Type} :
    ∀ (X : List (String × List String)) (Y : List α) (g : α → String)
      (h : List String),
      h ∈ (List.zipWith (fun e c => (e.1, e.2 ++ [g c])) X Y).map Prod.snd →
      ∃ e ∈ X, ∃ c ∈ Y, h = e.2 ++ [g c] := by
  intro X
  induction X with
  | nil => intro Y g h hmem; simp at hmem
  | cons x Xs ih =>
    intro Y g h hmem
    cases Y with
    | nil => simp at hmem
    | cons y Ys =>
      simp only [List.zipWith_cons_cons, List.map_cons, List.mem_cons] at hmem
      rcases hmem with rfl | hmem
      · exact ⟨x, by simp, y, by simp, rfl⟩
      · rcases ih Ys g h hmem with ⟨e, he, c, hc, rfl⟩
        exact ⟨e, by simp [he], c, by simp [hc], rfl⟩

/-- Claim C3: for every deck and at least two (distinct) players, `deal`
(`distributeCards`) hands out exactly the shuffled deck: the hands are keyed
by the players, their concatenation is a permutation of the deck's card ids
(each id lands in exactly one hand when the deck ids are distinct), and hand
sizes differ by at most 1 — the remainder is pushed one card at a time
cycling from player index 0, which the `distributeRemainder` closed form
makes explicit. -/
theorem distributeCards_partition (shuffle : List Card → List Card)
    (D : List Card) (players : List String)
    (hsh : ∀ l : List Card, (shuffle l).Perm l)
    (hnd : players.Nodup) (hn : 2 ≤ players.length) :
    (gameUtils.distributeCards shuffle D players).map Prod.fst = players ∧
    ((gameUtils.distributeCards shuffle D players).map Prod.snd).flatten.Perm
      (D.map Card.id) ∧
    ((D.map Card.id).Nodup → ∀ cid ∈ D.map Card.id,
      ((gameUtils.distributeCards shuffle D players).map Prod.snd).flatten.count cid
        = 1) ∧
    (∀ h1 h2, h1 ∈ (gameUtils.distributeCards shuffle D players).map Prod.snd →
      h2 ∈ (gameUtils.distributeCards shuffle D players).map Prod.snd →
      h1.length ≤ h2.length + 1) := by
  have hS : (shuffle D).Perm D := hsh D
  set S := shuffle D with hSdef
  set n := players.length with hn_def
  set q := S.length / n with hq_def
  have hn0 : 0 < n := by omega
  have hnq : n * q ≤ S.length := by
    rw [hq_def, Nat.mul_comm]
    exact Nat.div_mul_le_self S.length n
  have hmod : S.length - n * q = S.length % n := by
    rw [hq_def]
    have := Nat.div_add_mod S.length n
    omega
  set rest := S.drop (n * q) with hrest_def
  have hr_len : rest.length = S.length % n := by
    rw [hrest_def, List.length_drop, hmod]
  have hr_lt : rest.length < n := by
    rw [hr_len]; exact Nat.mod_lt _ hn0
  set init := players.enum.map (fun ie => (ie.2, gameUtils.sliceIds S q ie.1))
    with hinit_def
  have hinit : gameUtils.initialHands S players q = init :=
    initialHands_eq S players q hnd
  have hinitkeys : init.map Prod.fst = players := by
    rw [hinit_def, List.map_map]
    have : (Prod.fst ∘ fun ie : Nat × String =>
        (ie.2, gameUtils.sliceIds S q ie.1)) = Prod.snd := by
      funext ie; rfl
    rw [this, List.enum_eq_enumFrom, List.enumFrom_map_snd]
  have hinitlen : init.length = n := by
    rw [hinit_def, List.length_map, List.enum_eq_enumFrom, List.enumFrom_length]
  have hands_eq : gameUtils.distributeCards shuffle D players =
      List.zipWith (fun (e : String × List String) (c : Card) =>
        (e.1, e.2 ++ [c.id])) (init.take rest.length) rest ++
        init.drop rest.length := by
    show gameUtils.distributeRemainder players (gameUtils.initialHands S players q) 0
        (S.drop (n * q)) = _
    rw [hinit, ← hrest_def,
      distributeRemainder_eq players hnd rest 0 init hinitkeys
        (by simpa using hr_lt.le)]
    simp
  have htt : (init.take rest.length).take rest.length = init.take rest.length :=
    List.take_of_length_le (by rw [List.length_take]; exact Nat.min_le_left _ _)
  have hzip_len : (init.take rest.length).length = rest.length := by
    rw [List.length_take, hinitlen]
    exact Nat.min_eq_left hr_lt.le
  have hslice_len : ∀ i, i < n → (gameUtils.sliceIds S q i).length = q := by
    intro i hi
    rw [gameUtils.sliceIds, List.length_map, List.length_take, List.length_drop]
    have h1 : (i + 1) * q ≤ n * q := Nat.mul_le_mul_right q (by omega)
    have h3 : i * q + q = (i + 1) * q := by ring
    omega
  have hmem_init_len : ∀ e, e ∈ init → (e.2 : List String).length = q := by
    intro e he
    rw [hinit_def] at he
    rcases List.mem_map.1 he with ⟨ie, hie, rfl⟩
    have : ie.1 < players.length := by
      have h1 := List.mem_enum_iff_get?.1 hie
      rcases List.get?_eq_some.1 h1 with ⟨h, _⟩
      exact h
    exact hslice_len ie.1 this
  have hpermMain :
      ((gameUtils.distributeCards shuffle D players).map Prod.snd).flatten.Perm
        (D.map Card.id) := by
    rw [hands_eq, List.map_append, List.flatten_append]
    have hperm1 := zipWith_push_join_perm (init.take rest.length) rest Card.id hzip_len
    refine List.Perm.trans (List.Perm.append_right _ hperm1) ?_
    have hstep : ∀ (P Q R : List String), ((P ++ Q) ++ R).Perm ((P ++ R) ++ Q) := by
      intro P Q R
      rw [List.append_assoc, List.append_assoc]
      exact List.Perm.append_left P List.perm_append_comm
    refine List.Perm.trans (hstep _ _ _) ?_
    have hjoin : ((init.take rest.length).map Prod.snd).flatten ++
        ((init.drop rest.length).map Prod.snd).flatten =
          (init.map Prod.snd).flatten := by
      rw [← List.flatten_append, ← List.map_append, List.take_append_drop]
    rw [hjoin]
    have hsnd : init.map Prod.snd =
        (List.range n).map (fun i => ((S.map Card.id).drop (i * q)).take q) := by
      rw [hinit_def, List.map_map]
      have h1 : (Prod.snd ∘ fun ie : Nat × String =>
          (ie.2, gameUtils.sliceIds S q ie.1)) =
            (fun i => ((S.map Card.id).drop (i * q)).take q) ∘ Prod.fst := by
        funext ie
        simp only [Function.comp_apply, gameUtils.sliceIds]
        rw [List.map_take, List.map_drop]
      rw [h1, ← List.map_map, List.enum_eq_enumFrom, List.enumFrom_map_fst,
        ← List.range_eq_range']
    rw [hsnd, join_slices]
    have hrest_ids : rest.map Card.id = (S.map Card.id).drop (n * q) := by
      rw [hrest_def, List.map_drop]
    rw [hrest_ids, List.take_append_drop]
    exact hS.map Card.id
  refine ⟨?_, hpermMain, ?_, ?_⟩
  · rw [hands_eq, List.map_append, zipWith_push_map_fst _ _ Card.id, htt,
      List.map_take, List.map_drop, List.take_append_drop, hinitkeys]
  · intro hDnd cid hcid
    rw [hpermMain.count_eq]
    exact List.count_eq_one_of_mem hDnd hcid
  · intro h1 h2 hm1 hm2
    have hlen : ∀ h, h ∈ (gameUtils.distributeCards shuffle D players).map Prod.snd →
        h.length = q ∨ h.length = q + 1 := by
      intro h hm
      rw [hands_eq, List.map_append, List.mem_append] at hm
      rcases hm with hm | hm
      · rcases zipWith_push_mem _ _ _ _ hm with ⟨e, he, c, _, rfl⟩
        have := hmem_init_len e (List.mem_of_mem_take he)
        right
        rw [List.length_append, this]
        rfl
      · rcases List.mem_map.1 hm with ⟨e, he, rfl⟩
        left
        exact hmem_init_len e (List.mem_of_mem_drop he)
    rcases hlen h1 hm1 with h | h <;> rcases hlen h2 hm2 with h' | h' <;> omega

/-- Witness for C3 at a concrete 5-card deck and two players. -/
theorem distributeCards_partition_witness :
    (gameUtils.distributeCards id
      [⟨"a", "a", []⟩, ⟨"b", "b", []⟩, ⟨"c", "c", []⟩, ⟨"d", "d", []⟩, ⟨"e", "e", []⟩]
      ["P", "Q"]).map Prod.fst = ["P", "Q"] :=
  (distributeCards_partition id
    [⟨"a", "a", []⟩, ⟨"b", "b", []⟩, ⟨"c", "c", []⟩, ⟨"d", "d", []⟩, ⟨"e", "e", []⟩]
    ["P", "Q"] (fun l => List.Perm.refl l) (by decide) (by decide)).1

theorem lookupKey_map_keyfix {α : Type} (f : String × α → String × α)
    (hf : ∀ e, (f e).1 = e.1) :
    ∀ (m : StrMap α) (p : String),
      lookupKey (m.map f) p = (m.find? (fun e => e.1 == p)).map (fun e => (f e).2) := by
  intro m
  induction m with
  | nil => intro p; rfl
  | cons e m ih =>
    intro p
    by_cases hep : e.1 = p
    · rw [List.map_cons, lookupKey_cons _ _ _ p]
      rw [if_pos (by rw [hf e, hep]), List.find?_cons_of_pos _ (by simpa using hep)]
      rfl
    · rw [List.map_cons, lookupKey_cons _ _ _ p]
      rw [if_neg (by rw [hf e]; exact hep),
        List.find?_cons_of_neg _ (by simpa using hep)]
      exact ih p

theorem removePlayedOpt_spec :
    ∀ (plays : StrMap String) (pc : StrMap (List String)),
      (plays.map Prod.fst).Nodup →
      (∀ e ∈ plays, (lookupKey pc e.1).isSome) →
      ∃ removed, removePlayedOpt plays pc = some removed ∧
        ∀ p : String, lookupKey removed p =
          match lookupKey plays p with
          | some cid => (lookupKey pc p).map (fun h => h.filter (fun id => !(id == cid)))
          | none => lookupKey pc p := by
  intro plays
  induction plays with
  | nil =>
    intro pc _ _
    exact ⟨pc, rfl, fun p => rfl⟩
  | cons e rest ih =>
    intro pc hnd hsome
    have hnd1 : (e.1 :: rest.map Prod.fst).Nodup := by
      rw [List.map_cons] at hnd; exact hnd
    rcases Option.isSome_iff_exists.1 (hsome e (by simp)) with ⟨h, hh⟩
    have hstep : removePlayedOpt (e :: rest) pc =
        removePlayedOpt rest (setKey pc e.1 (h.filter (fun id => !(id == e.2)))) := by
      unfold removePlayedOpt
      rw [List.foldl_cons]
      simp [hh]
    have hsome2 : ∀ e' ∈ rest,
        (lookupKey (setKey pc e.1 (h.filter (fun id => !(id == e.2)))) e'.1).isSome := by
      intro e' he'
      have hne : e'.1 ≠ e.1 := fun hc =>
        (List.nodup_cons.1 hnd1).1 (hc ▸ List.mem_map_of_mem Prod.fst he')
      rw [lookupKey_setKey_ne _ _ _ _ hne]
      exact hsome e' (by simp [he'])
    rcases ih _ (List.nodup_cons.1 hnd1).2 hsome2 with ⟨removed, hrem, hdesc⟩
    refine ⟨removed, by rw [hstep]; exact hrem, ?_⟩
    intro p
    by_cases hp : p = e.1
    · have hrnone : lookupKey rest p = none :=
        (lookupKey_eq_none_iff _ _).2 (fun e' he' hc =>
          (List.nodup_cons.1 hnd1).1 (by
            rw [← hp, ← hc]
            exact List.mem_map_of_mem Prod.fst he'))
      have hccons : lookupKey (e :: rest) p = some e.2 := by
        rcases e with ⟨k, cid⟩
        exact (lookupKey_cons k cid rest p).trans (if_pos hp.symm)
      rw [hdesc p, hrnone, hccons]
      show lookupKey (setKey pc e.1 (h.filter (fun id => !(id == e.2)))) p =
        (lookupKey pc p).map (fun h2 => h2.filter (fun id => !(id == e.2)))
      rw [hp, lookupKey_setKey_self, hh]
      rfl
    · have hlcons : lookupKey (e :: rest) p = lookupKey rest p := by
        rcases e with ⟨k, cid⟩
        exact (lookupKey_cons k cid rest p).trans (if_neg (fun hc => hp hc.symm))
      rw [hdesc p, hlcons,
        lookupKey_setKey_ne _ _ _ _ hp]

theorem lookupKey_of_mem_nodup {α : Type} :
    ∀ (m : StrMap α) (e : String × α), e ∈ m → (m.map Prod.fst).Nodup →
      lookupKey m e.1 = some e.2 := by
  intro m
  induction m with
  | nil => intro e he _; simp at he
  | cons a t ih =>
    intro e he hnd
    have hnd1 : (a.1 :: t.map Prod.fst).Nodup := by
      rw [List.map_cons] at hnd; exact hnd
    rcases List.mem_cons.1 he with rfl | he'
    · rcases e with ⟨k, v⟩
      exact (lookupKey_cons k v t k).trans (if_pos rfl)
    · have hne : a.1 ≠ e.1 := fun hc =>
        (List.nodup_cons.1 hnd1).1 (hc ▸ List.mem_map_of_mem Prod.fst he')
      rcases a with ⟨k, v⟩
      exact ((lookupKey_cons k v t e.1).trans (if_neg hne)).trans
        (ih e he' (List.nodup_cons.1 hnd1).2)

theorem length_filter_remove (cid : String) :
    ∀ (h : List String), h.Nodup → cid ∈ h →
      (h.filter (fun id => !(id == cid))).length + 1 = h.length := by
  intro h
  induction h with
  | nil => intro _ hmem; simp at hmem
  | cons a t ih =>
    intro hnd hmem
    by_cases hac : a = cid
    · subst hac
      rw [List.filter_cons_of_neg (by simp)]
      have hnotin : a ∉ t := (List.nodup_cons.1 hnd).1
      rw [List.filter_eq_self.2 (fun x hx => by
        simp only [Bool.not_eq_true']
        have : x ≠ a := fun hc => hnotin (hc ▸ hx)
        simp [this])]
      rfl
    · rw [List.filter_cons_of_pos (by simp [hac])]
      have hmem' : cid ∈ t := by
        rcases List.mem_cons.1 hmem with rfl | h'
        · exact absurd rfl hac
        · exact h'
      rw [List.length_cons, List.length_cons,
        ← ih (List.nodup_cons.1 hnd).2 hmem']

/-- Claim C2: in the collect step, under played-from-own-hand (and the JS
object guarantees: distinct play keys, duplicate-free hands), every
non-winner who played loses exactly their played card (hand shrinks by 1),
the winner's hand after the collection equals its post-removal size plus
the number of players who played, and every player whose hand reaches 0
cards is marked eliminated. -/
theorem collectWinnings_hand_accounting
    (shuffle : List String → List String) (now : String)
    (s : GameState) (players : StrMap Player) (allCards : List Card)
    (w attr : String)
    (hw : s.roundWinner = some w) (hw0 : w ≠ "")
    (ha : s.selectedAttribute = some attr) (ha0 : attr ≠ "")
    (hsh : ∀ l : List String, (shuffle l).Perm l)
    (hplays : (s.currentRoundCards.map Prod.fst).Nodup)
    (hhand : ∀ e ∈ s.currentRoundCards, ∃ h, lookupKey s.playerCards e.1 = some h ∧
      e.2 ∈ h ∧ h.Nodup) :
    ∃ s2 players2,
      gameService.collectWinningsAndPrepareNextRound shuffle now s players allCards =
        some (s2, players2) ∧
      (∀ e ∈ s.currentRoundCards, e.1 ≠ w → ∀ h, lookupKey s.playerCards e.1 = some h →
        ∃ h2, lookupKey s2.playerCards e.1 = some h2 ∧ e.2 ∉ h2 ∧
          h2.length + 1 = h.length) ∧
      (∀ h, lookupKey s.playerCards w = some h →
        (w ∈ s.currentRoundCards.map Prod.fst →
          ∃ hw2, lookupKey s2.playerCards w = some hw2 ∧
            hw2.length + 1 = h.length + s.currentRoundCards.length) ∧
        (w ∉ s.currentRoundCards.map Prod.fst →
          ∃ hw2, lookupKey s2.playerCards w = some hw2 ∧
            hw2.length = h.length + s.currentRoundCards.length)) ∧
      (∀ p pl2, lookupKey players2 p = some pl2 →
        lookupKey s2.playerCards p = some [] → pl2.status = Status.eliminated) := by
  have hsome : ∀ e ∈ s.currentRoundCards, (lookupKey s.playerCards e.1).isSome := by
    intro e he
    rcases hhand e he with ⟨h, hh, _, _⟩
    rw [hh]; rfl
  rcases removePlayedOpt_spec s.currentRoundCards s.playerCards hplays hsome with
    ⟨removed, hrem, hdesc⟩
  set played := s.currentRoundCards.map Prod.snd with hplayed
  set collected := setKey removed w (shuffle ((lookupKey removed w).getD [] ++ played))
    with hcol
  set elim := (fun e : String × Player =>
      if ((lookupKey collected e.1).map List.length == some 0)
          && (e.2.status == Status.active) then
        (e.1, { e.2 with status := Status.eliminated })
      else e) with helim
  refine ⟨{ s with
      playerCards := collected
      roundHistory := s.roundHistory ++
        [{ roundNumber := s.currentRound
           selectedAttribute := attr
           playerCards := (gameUtils.compareCards s.currentRoundCards attr allCards).results
           winner := w
           timestamp := now }]
      gamePhase := .animatingWin
      gameWinner := gameUtils.checkGameEnd (players.map elim) },
    players.map elim, ?_, ?_, ?_, ?_⟩
  · unfold gameService.collectWinningsAndPrepareNextRound
    simp only [hw, ha]
    rw [if_neg (by simp [hw0, ha0]), hrem]
    rfl
  · intro e he hne h hh
    have hpl : lookupKey s.currentRoundCards e.1 = some e.2 :=
      lookupKey_of_mem_nodup s.currentRoundCards e he hplays
    have hlr : lookupKey removed e.1 =
        some (h.filter (fun id => !(id == e.2))) := by
      rw [hdesc e.1, hpl, hh]
      rfl
    rcases hhand e he with ⟨h', hh', hmem', hnd'⟩
    have hh'h : h' = h := by
      rw [hh] at hh'; injection hh' with hx; exact hx.symm
    rw [hh'h] at hmem' hnd'
    refine ⟨h.filter (fun id => !(id == e.2)), ?_, ?_, ?_⟩
    · show lookupKey collected e.1 = _
      rw [hcol, lookupKey_setKey_ne _ _ _ _ hne, hlr]
    · intro hmem
      have := (List.mem_filter.1 hmem).2
      simp at this
    · exact length_filter_remove e.2 h hnd' hmem'
  · intro h hh
    constructor
    · intro hmemw
      rcases List.mem_map.1 hmemw with ⟨e, he, hew⟩
      have hpl : lookupKey s.currentRoundCards w = some e.2 := by
        rw [← hew]
        exact lookupKey_of_mem_nodup s.currentRoundCards e he hplays
      have hlr : lookupKey removed w =
          some (h.filter (fun id => !(id == e.2))) := by
        rw [hdesc w, hpl, hh]
        rfl
      rcases hhand e he with ⟨h', hh', hmem', hnd'⟩
      have hh'h : h' = h := by
        rw [hew] at hh'
        rw [hh] at hh'; injection hh' with hx; exact hx.symm
      rw [hh'h] at hmem' hnd'
      refine ⟨_, lookupKey_setKey_self removed w _, ?_⟩
      rw [(hsh _).length_eq, List.length_append, hlr]
      have hfl := length_filter_remove e.2 h hnd' hmem'
      simp only [Option.getD_some, hplayed, List.length_map]
      omega
    · intro hnmemw
      have hpl : lookupKey s.currentRoundCards w = none :=
        (lookupKey_eq_none_iff _ _).2
          (fun e he hc => hnmemw (hc ▸ List.mem_map_of_mem Prod.fst he))
      have hlr : lookupKey removed w = some h := by
        rw [hdesc w, hpl, hh]
      refine ⟨_, lookupKey_setKey_self removed w _, ?_⟩
      rw [(hsh _).length_eq, List.length_append, hlr]
      simp only [Option.getD_some, hplayed, List.length_map]
  · intro p pl2 hp2 hpc0
    have hf : ∀ e : String × Player, (elim e).1 = e.1 := by
      intro e
      simp only [helim]
      by_cases hc : ((lookupKey collected e.1).map List.length == some 0)
          && (e.2.status == Status.active)
      · rw [if_pos hc]
      · rw [if_neg hc]
    rw [lookupKey_map_keyfix _ hf] at hp2
    rcases Option.map_eq_some'.1 hp2 with ⟨a, hfind, hfa⟩
    have ha1 : a.1 = p := by
      have := List.find?_some hfind
      simpa using this
    have hpc0' : lookupKey collected p = some [] := hpc0
    have hcond : ((lookupKey collected a.1).map List.length == some 0) = true := by
      rw [ha1, hpc0']
      rfl
    cases hst : a.2.status with
    | eliminated =>
      rw [← hfa]
      simp only [helim]
      by_cases hc : ((lookupKey collected a.1).map List.length == some 0)
          && (a.2.status == Status.active)
      · rw [if_pos hc]
      · rw [if_neg hc]
        exact hst
    | active =>
      rw [← hfa]
      simp only [helim]
      rw [if_pos (by rw [hcond, hst]; rfl)]

/-- A concrete resolved round: `A` won with `a1`; `B` played their last
card. -/
def stateCollect : GameState :=
  { currentRound := 1
    currentPlayer := some "A"
    gamePhase := .comparingOnTable
    playerCards := [("A", ["a1", "a2"]), ("B", ["b1"])]
    currentRoundCards := [("A", "a1"), ("B", "b1")]
    selectedAttribute := some "X"
    roundWinner := some "A"
    gameWinner := none
    roundHistory := []
    spinResult := none }

/-- The catalog for the concrete collect scenario. -/
def cardsCollect : List Card :=
  [⟨"a1", "a1", [("X", 10)]⟩, ⟨"b1", "b1", [("X", 5)]⟩, ⟨"a2", "a2", [("X", 3)]⟩]

/-- Witness for C2 at the concrete resolved round. -/
theorem collectWinnings_hand_accounting_witness :
    ∃ s2 players2,
      gameService.collectWinningsAndPrepareNextRound (fun l => l) "t" stateCollect
          roomAB cardsCollect = some (s2, players2) ∧
      (∀ e ∈ stateCollect.currentRoundCards, e.1 ≠ "A" → ∀ h,
        lookupKey stateCollect.playerCards e.1 = some h →
        ∃ h2, lookupKey s2.playerCards e.1 = some h2 ∧ e.2 ∉ h2 ∧
          h2.length + 1 = h.length) ∧
      (∀ h, lookupKey stateCollect.playerCards "A" = some h →
        ("A" ∈ stateCollect.currentRoundCards.map Prod.fst →
          ∃ hw2, lookupKey s2.playerCards "A" = some hw2 ∧
            hw2.length + 1 = h.length + stateCollect.currentRoundCards.length) ∧
        ("A" ∉ stateCollect.currentRoundCards.map Prod.fst →
          ∃ hw2, lookupKey s2.playerCards "A" = some hw2 ∧
            hw2.length = h.length + stateCollect.currentRoundCards.length)) ∧
      (∀ p pl2, lookupKey players2 p = some pl2 →
        lookupKey s2.playerCards p = some [] → pl2.status = Status.eliminated) :=
  collectWinnings_hand_accounting (fun l => l) "t" stateCollect roomAB cardsCollect
    "A" "X" rfl (by decide) rfl (by decide) (fun l => List.Perm.refl l) (by decide)
    (by
      intro e he
      rcases List.mem_cons.1 he with rfl | he2
      · exact ⟨["a1", "a2"], rfl, by decide, by decide⟩
      rcases List.mem_cons.1 he2 with rfl | he3
      · exact ⟨["b1"], rfl, by decide, by decide⟩
      · simp at he3)

theorem collectWinnings_inv (shuffle : List String → List String) (now : String)
    (s : GameState) (players : StrMap Player) (allCards : List Card)
    (s2 : GameState) (players2 : StrMap Player)
    (h : gameService.collectWinningsAndPrepareNextRound shuffle now s players allCards
      = some (s2, players2)) :
    s2.gameWinner = gameUtils.checkGameEnd players2 ∧
    ∀ e ∈ players2, ∃ e' ∈ players, e.2.nickname = e'.2.nickname := by
  unfold gameService.collectWinningsAndPrepareNextRound at h
  cases hw : s.roundWinner with
  | none => rw [hw] at h; simp at h
  | some w =>
    cases ha : s.selectedAttribute with
    | none => rw [hw, ha] at h; simp at h
    | some attr =>
      simp only [hw, ha] at h
      by_cases hguard : w = "" ∨ attr = ""
      · rw [if_pos hguard] at h
        simp at h
      · rw [if_neg hguard] at h
        cases hrem : removePlayedOpt s.currentRoundCards s.playerCards with
        | none =>
          rw [hrem] at h
          simp at h
        | some removed =>
          rw [hrem] at h
          simp only [Option.map_some', Option.some_inj] at h
          have hs2 : s2 = _ ∧ players2 = _ := ⟨congrArg Prod.fst h.symm, congrArg Prod.snd h.symm⟩
          rcases hs2 with ⟨hs2, hp2⟩
          constructor
          · rw [hs2, hp2]
          · intro e he
            rw [hp2] at he
            rcases List.mem_map.1 he with ⟨e', he', rfl⟩
            refine ⟨e', he', ?_⟩
            by_cases hc : ((lookupKey (setKey removed w
                (shuffle ((lookupKey removed w).getD [] ++
                  s.currentRoundCards.map Prod.snd))) e'.1).map List.length == some 0)
                && (e'.2.status == Status.active)
            · rw [if_pos hc]
            · rw [if_neg hc]

/-- Claim C4, counterexample: right after the collect write, `gameWinner` is
already set while `gamePhase` is still `animating-win` — a reachable stored
state with a non-null match winner whose phase is not `finished`. -/
theorem gameWinner_phase_counterexample :
    (gameService.collectWinningsAndPrepareNextRound (fun l => l) "t" stateCollect
        roomAB cardsCollect).map (fun r => (r.1.gameWinner, r.1.gamePhase)) =
      some (some "A", Phase.animatingWin) ∧
    Phase.animatingWin ≠ Phase.finished := by
  decide

theorem collectFinish_none (shuffle : List String → List String) (now : String)
    (s : GameState) (players : StrMap Player) (allCards : List Card)
    (h : gameService.collectWinningsAndPrepareNextRound shuffle now s players allCards
      = none) :
    gameService.collectFinish shuffle now s players allCards = (s, players) := by
  unfold gameService.collectFinish
  rw [h]

theorem collectFinish_some (shuffle : List String → List String) (now : String)
    (s : GameState) (players : StrMap Player) (allCards : List Card)
    (s2 : GameState) (p2 : StrMap Player)
    (h : gameService.collectWinningsAndPrepareNextRound shuffle now s players allCards
      = some (s2, p2)) :
    gameService.collectFinish shuffle now s players allCards =
      if s2.gameWinner.getD "" ≠ "" then ({ s2 with gamePhase := .finished }, p2)
      else (gameService.startNextRound s2, p2) := by
  unfold gameService.collectFinish
  rw [h]

/-- Claim C4 (amended): `checkGameEnd` returns the sole active player iff
exactly one active entry exists (else `null`); and once the collect step's
scheduled finish transition has run, a non-null `gameWinner` implies exactly
one active player and phase `finished` (between the collect write and the
timer the phase is still `animating-win`). -/
theorem gameEnd_invariant (shuffle : List String → List String) (now : String)
    (s : GameState) (players : StrMap Player) (allCards : List Card)
    (hg : s.gameWinner = none)
    (hnick : ∀ e ∈ players, (e.2 : Player).nickname ≠ "") :
    (∀ w, (gameService.collectFinish shuffle now s players allCards).1.gameWinner
        = some w →
      ((((gameService.collectFinish shuffle now s players allCards).2).map
          Prod.snd).filter (fun q => q.status == Status.active)).length = 1 ∧
      (gameService.collectFinish shuffle now s players allCards).1.gamePhase
        = Phase.finished) ∧
    (∀ (ps : StrMap Player) (w : String), gameUtils.checkGameEnd ps = some w ↔
      ∃ pl, ((ps.map Prod.snd).filter (fun q => q.status == Status.active)) = [pl] ∧
        pl.nickname = w) ∧
    (∀ ps : StrMap Player, gameUtils.checkGameEnd ps = none ↔
      ((ps.map Prod.snd).filter (fun q => q.status == Status.active)).length ≠ 1) := by
  have hchar : ∀ (ps : StrMap Player) (w : String), gameUtils.checkGameEnd ps = some w ↔
      ∃ pl, ((ps.map Prod.snd).filter (fun q => q.status == Status.active)) = [pl] ∧
        pl.nickname = w := by
    intro ps w
    unfold gameUtils.checkGameEnd
    cases hfl : (ps.map Prod.snd).filter (fun q => q.status == Status.active) with
    | nil => simp
    | cons pl t =>
      cases t with
      | nil => simp
      | cons pl2 t2 => simp
  have hchar0 : ∀ ps : StrMap Player, gameUtils.checkGameEnd ps = none ↔
      ((ps.map Prod.snd).filter (fun q => q.status == Status.active)).length ≠ 1 := by
    intro ps
    unfold gameUtils.checkGameEnd
    cases hfl : (ps.map Prod.snd).filter (fun q => q.status == Status.active) with
    | nil => simp
    | cons pl t =>
      cases t with
      | nil => simp
      | cons pl2 t2 => simp
  refine ⟨?_, hchar, hchar0⟩
  intro w hw'
  cases hcw : gameService.collectWinningsAndPrepareNextRound shuffle now s players
      allCards with
  | none =>
    rw [collectFinish_none shuffle now s players allCards hcw, hg] at hw'
    exact absurd hw' (by simp)
  | some pr =>
    rcases pr with ⟨s2, p2⟩
    rcases collectWinnings_inv shuffle now s players allCards s2 p2 hcw with
      ⟨hgw, hnick2⟩
    rw [collectFinish_some shuffle now s players allCards s2 p2 hcw] at hw' ⊢
    by_cases hge : s2.gameWinner.getD "" ≠ ""
    · rw [if_pos hge] at hw' ⊢
      simp only at hw'
      rw [hgw] at hw'
      rcases (hchar p2 w).1 hw' with ⟨pl, hfl, _⟩
      constructor
      · simp only [hfl]
        rfl
      · rfl
    · rw [if_neg hge] at hw'
      push_neg at hge
      cases hgw2 : s2.gameWinner with
      | none =>
        simp only at hw'
        have hsn : (gameService.startNextRound s2).gameWinner = s2.gameWinner := rfl
        rw [hsn, hgw2] at hw'
        exact absurd hw' (by simp)
      | some g =>
        have hg0 : g = "" := by
          rw [hgw2] at hge
          simpa using hge
        rw [hgw2] at hgw
        rcases (hchar p2 g).1 hgw.symm with ⟨pl, hfl, hplnick⟩
        have hplmem : pl ∈ (p2.map Prod.snd).filter
            (fun q => q.status == Status.active) := by
          rw [hfl]; exact List.mem_cons_self _ _
        have hplmem2 : pl ∈ p2.map Prod.snd := (List.mem_filter.1 hplmem).1
        rcases List.mem_map.1 hplmem2 with ⟨e, he, rfl⟩
        rcases hnick2 e he with ⟨e', he', hnn⟩
        exact absurd (hnn.symm.trans (hplnick.trans hg0)) (hnick e' he')

/-- Witness for C4 at the concrete resolved round: `B` is eliminated, `A`
is the sole active player, and after the finish transition the phase is
`finished`. -/
theorem gameEnd_invariant_witness :
    ((((gameService.collectFinish (fun l => l) "t" stateCollect roomAB
        cardsCollect).2).map Prod.snd).filter
          (fun q => q.status == Status.active)).length = 1 ∧
    (gameService.collectFinish (fun l => l) "t" stateCollect roomAB
        cardsCollect).1.gamePhase = Phase.finished :=
  (gameEnd_invariant (fun l => l) "t" stateCollect roomAB cardsCollect rfl
    (by decide)).1 "A" (by decide)

theorem lookupKey_some_mem {α : Type} (m : StrMap α) (k : String) (v : α)
    (h : lookupKey m k = some v) : ∃ e ∈ m, e.1 = k ∧ e.2 = v := by
  unfold lookupKey at h
  rcases Option.map_eq_some'.1 h with ⟨e, hfind, hev⟩
  refine ⟨e, List.mem_of_find?_eq_some hfind, ?_, hev⟩
  have := List.find?_some hfind
  simpa using this

/-- A round where no played card carries the chosen attribute `X`. -/
def stateNoAttr : GameState :=
  { currentRound := 1
    currentPlayer := some "A"
    gamePhase := .revealing
    playerCards := [("A", ["a1"]), ("B", ["b1"])]
    currentRoundCards := [("A", "a1"), ("B", "b1")]
    selectedAttribute := some "X"
    roundWinner := none
    gameWinner := none
    roundHistory := []
    spinResult := none }

/-- A catalog whose cards lack the attribute `X` entirely. -/
def cardsNoAttr : List Card :=
  [⟨"a1", "a1", [("Y", 1)]⟩, ⟨"b1", "b1", [("Y", 2)]⟩]

/-- Claim C10, counterexample: with no play resolving under the chosen
attribute, `compareCards` indeed returns winner `''`, but the cited
`processRoundResult` then throws (spreading the undefined
`updatedPlayerCards['']`) before any write — no state storing `''` as
`roundWinner` and no hand entry for `''` is ever produced. -/
theorem emptyWinner_process_counterexample :
    (gameUtils.compareCards stateNoAttr.currentRoundCards "X" cardsNoAttr).winner
      = "" ∧
    legacyGameService.processRoundResult "t" stateNoAttr cardsNoAttr = none := by
  decide

/-- Claim C10 (amended): when the plays map is empty or no played card
resolves in the catalog with the chosen attribute, `compareCards` returns
winner `''`; the legacy `processRoundResult` then indexes `playerCards` with
`''`, whose absence makes the step fail with an error before any store
write — no `''` hand entry is created and nothing is stored. -/
theorem emptyWinner_process_spec (now : String) (s : GameState)
    (allCards : List Card) (attr : String)
    (ha : s.selectedAttribute = some attr)
    (hcons : consideredPlays s.currentRoundCards attr allCards = [])
    (hplays : (s.currentRoundCards.map Prod.fst).Nodup)
    (hhand : ∀ e ∈ s.currentRoundCards, (lookupKey s.playerCards e.1).isSome)
    (hempty : lookupKey s.playerCards "" = none) :
    (gameUtils.compareCards s.currentRoundCards attr allCards).winner = "" ∧
    legacyGameService.processRoundResult now s allCards = none := by
  have hwinner : (gameUtils.compareCards s.currentRoundCards attr allCards).winner
      = "" := by
    rw [gameUtils.compareCards, compareLoop_winner, hcons]
    rfl
  refine ⟨hwinner, ?_⟩
  rcases removePlayedOpt_spec s.currentRoundCards s.playerCards hplays hhand with
    ⟨removed, hrem, hdesc⟩
  have hplnone : lookupKey s.currentRoundCards "" = none := by
    cases hpl : lookupKey s.currentRoundCards "" with
    | none => rfl
    | some cid =>
      rcases lookupKey_some_mem _ _ _ hpl with ⟨e, he, he1, _⟩
      have := hhand e he
      rw [he1, hempty] at this
      simp at this
  have hrnone : lookupKey removed "" = none := by
    rw [hdesc "", hplnone, hempty]
  unfold legacyGameService.processRoundResult
  rw [ha]
  simp only [hrem, Option.some_bind]
  rw [hwinner, hrnone]
  rfl

/-- Witness for C10's amended claim at the concrete no-attribute round. -/
theorem emptyWinner_process_spec_witness :
    (gameUtils.compareCards stateNoAttr.currentRoundCards "X" cardsNoAttr).winner
      = "" ∧
    legacyGameService.processRoundResult "t" stateNoAttr cardsNoAttr = none :=
  emptyWinner_process_spec "t" stateNoAttr cardsNoAttr "X" rfl (by decide)
    (by decide) (by decide) rfl
